import Mathlib

/-!
Verification of the humminbird binary record codec (humminbird.cc).

Shallow embedding conventions:
* machine integers are `Nat` / `Int`; where C overflow or casts matter the
  reduction `% 2 ^ w` is written explicitly;
* on-disk names and byte buffers are `List Nat` (byte values);
* the floating-point projection functions (gudermannian_i1924 and friends)
  are outside the embedding: decoded points keep the raw integer `east` /
  `north` coordinates that the C code feeds into those projections;
* `fatal` paths are modelled by `Option` / `Except` results.
-/

/-! ## Constants from humminbird.cc -/

def WPT_NAME_LEN : Nat := 12

def RTE_NAME_LEN : Nat := 20

def TRK_NAME_LEN : Nat := 20

def MAX_RTE_POINTS : Nat := 50

def TRK_MAGIC : Nat := 0x01030000

def TRK_MAGIC2 : Nat := 0x01021F70

def WPT_MAGIC : Nat := 0x02020024

def WPT_MAGIC2 : Nat := 0x02030024

def RTE_MAGIC : Nat := 0x03030088

/-- sizeof(humminbird_trk_header_t): 4 uint16 + 1 uint32 + 8 int32 + char[20]
 = 8 + 4 + 32 + 20 = 64 bytes (no padding; the source comment "68 bytes"
 counts the 4-byte magic as well). -/
def trkHeaderSize : Nat := 64

/-- sizeof(humminbird_trk_point_t): 2 int16 + 1 uint16 = 6 bytes. -/
def trkPointSize : Nat := 6

/-- `max_points` of humminbird_read_track / humminbird_track_head /
humminbird_track_tail: `(131080 - sizeof(uint32_t) - sizeof(th)) /
sizeof(humminbird_trk_point_t)`. -/
def trkMaxPoints : Nat := (131080 - 4 - trkHeaderSize) / trkPointSize

/-- Old-format fixed file length (humminbird_read_track_old, `file_len`). -/
def oldFileLen : Nat := 8048

/-- C-string length bounded by the field width: the bytes kept by
`QByteArray(buf, qstrnlen(buf, n))`. -/
def cstrTake (n : Nat) (l : List Nat) : List Nat :=
  (l.take n).takeWhile (fun b => b != 0)

/-! ## Track decode (new format), humminbird_read_track -/

/-- One 6-byte point record after `be_read16` byte-order correction:
`deltaeast` / `deltanorth` are int16 values, `depth` a uint16. -/
structure TrkPt where
  de : Int
  dn : Int
  depth : Nat
deriving DecidableEq

/-- The freak-value filter of humminbird_read_track applied along one axis.
The loop at i converts points[i], peeks the next slot, and on the pair
`(32767, -32768)` rewrites it to `(-1, 0)`; a slot rewritten to 0 is what
the next iteration then sees (`BE 0 == LE 0`).  The one slot past the data
read from the stream is zero-initialised, so the last point's lookahead is
always 0 and never triggers the filter, matching the base case here. -/
def fixGo (cur : Int) : List Int → List Int
  | [] => [cur]
  | d2 :: rest =>
    if cur = 32767 ∧ d2 = -32768 then (-1) :: fixGo 0 rest
    else cur :: fixGo d2 rest

/-- The freak-value filter over the whole per-axis delta list (see
`fixGo`). -/
def fixDeltas : List Int → List Int
  | [] => []
  | d :: rest => fixGo d rest

/-- Running accumulation `accum += delta` starting from `a`; returns the
successive accumulated values (one per delta). -/
def accumList (a : Int) : List Int → List Int
  | [] => []
  | d :: rest => (a + d) :: accumList (a + d) rest

/-- A decoded track point as the loop builds it: raw integer projected
coordinates (the floating-point lat/lon projection is outside the
embedding), optional depth (set only when the raw depth is non-zero), and
whether the header time was attached (last loop point, non-zero time). -/
structure DecPt where
  east : Int
  north : Int
  depth : Option Nat
  hasTime : Bool
deriving DecidableEq

/-- A decoded track record. -/
structure DecodedTrack where
  name : List Nat
  num : Nat
  points : List DecPt
deriving DecidableEq

/-- The point loop of humminbird_read_track over the already
byte-order-corrected and freak-filtered list of
`(deltaeast, deltanorth, depth)` triples. -/
def trackLoop (ae an : Int) (t : Nat) : List (Int × Int × Nat) → List DecPt
  | [] => []
  | (de, dn, d) :: rest =>
    { east := ae + de, north := an + dn,
      depth := if d ≠ 0 then some d else none,
      hasTime := rest.isEmpty && (t != 0) } :: trackLoop (ae + de) (an + dn) t rest

/-- New-format track header after `be_read16`/`be_read32` correction
(68 bytes on disk counting the 4-byte magic, struct size 64). -/
structure TrkHeader where
  trk_num : Nat
  num_points : Nat
  time : Nat
  start_east : Int
  start_north : Int
  end_east : Int
  end_north : Int
  sw_east : Int
  sw_north : Int
  ne_east : Int
  ne_north : Int
  name : List Nat
deriving DecidableEq

/-- Count adjustment of humminbird_read_track: `if (th.num_points ==
max_points + 1) th.num_points--;`. -/
def trkAdjustCount (n : Nat) : Nat :=
  if n = trkMaxPoints + 1 then n - 1 else n

/-- Header-count handling of humminbird_read_track: after the adjustment,
`num_points > max_points` is fatal (`none`); otherwise the stream body is
read as `gbfread(points, 6, th.num_points - 1, fin)` whole records, where
`th.num_points - 1` is a C `int` converted to the unsigned 32-bit
`gbsize_t`.  Returns the number of 6-byte records read from the stream. -/
def readTrackPlan (n : Nat) : Option Nat :=
  let n' := trkAdjustCount n
  if trkMaxPoints < n' then none
  else some ((((n' : Int) - 1) % 4294967296).toNat)

/-- Body of humminbird_read_track past the header checks: one waypoint from
the header start coordinate, then the loop over the `num_points - 1` read
points, with the freak filter applied independently per axis before the
accumulation. -/
def humminbird_read_track (h : TrkHeader) (pts : List TrkPt) : DecodedTrack :=
  let des := fixDeltas (pts.map TrkPt.de)
  let dns := fixDeltas (pts.map TrkPt.dn)
  let deps := pts.map TrkPt.depth
  { name := cstrTake 20 h.name,
    num := h.trk_num,
    points := { east := h.start_east, north := h.start_north,
                depth := none, hasTime := false }
      :: trackLoop h.start_east h.start_north h.time (des.zip (dns.zip deps)) }

/-! ## Track decode (old format), humminbird_read_track_old -/

/-- Old-format track header (struct size 28; the stale source comment says
16). -/
structure TrkHeaderOld where
  trk_num : Nat
  num_points : Nat
  time : Nat
  start_east : Int
  start_north : Int
  end_east : Int
  end_north : Int
deriving DecidableEq

/-- The point loop of humminbird_read_track_old: the freak-value filter is
commented out in the source, the deltas are accumulated raw, and there is
no depth channel. -/
def trackLoopOld (ae an : Int) (t : Nat) : List (Int × Int) → List DecPt
  | [] => []
  | (de, dn) :: rest =>
    { east := ae + de, north := an + dn, depth := none,
      hasTime := rest.isEmpty && (t != 0) } :: trackLoopOld (ae + de) (an + dn) t rest

/-- Body of humminbird_read_track_old: the name comes from a
`gbfseek(fin, file_len - TRK_NAME_LEN, SEEK_SET)` into the fixed-length
8048-byte record (`file` is the whole byte stream), not from the header. -/
def humminbird_read_track_old (h : TrkHeaderOld) (pts : List (Int × Int))
    (file : List Nat) : DecodedTrack :=
  { name := cstrTake TRK_NAME_LEN (file.drop (oldFileLen - TRK_NAME_LEN)),
    num := h.trk_num,
    points := { east := h.start_east, north := h.start_north,
                depth := none, hasTime := false }
      :: trackLoopOld h.start_east h.start_north h.time pts }

/-! ## Waypoint decode, humminbird_read_wpt -/

/-- The 36-byte (with magic; struct size 32) waypoint record after
byte-order correction. -/
structure WptRecord where
  num : Nat
  status : Nat
  icon : Nat
  depth : Nat
  time : Nat
  east : Int
  north : Int
  name : List Nat
deriving DecidableEq

/-- The in-memory Waypoint as far as the integer embedding goes: the
lat/lon floating-point projection is outside the embedding, so the raw
`east` / `north` integers are kept; `depth` is in centimeters and set only
when the raw field is non-zero; `icon` is the table index when in range
(`w.icon < num_icons`), mirroring `wpt->icon_descr = humminbird_icons[w.icon]`. -/
structure HWaypoint where
  name : List Nat
  time : Nat
  east : Int
  north : Int
  depth : Option Nat
  icon : Option Nat
deriving DecidableEq

/-- Waypoint construction of humminbird_read_wpt (before the status
switch); `tblLen` is `std::size(humminbird_icons)`. -/
def wptFromRecord (tblLen : Nat) (w : WptRecord) : HWaypoint :=
  { name := cstrTake WPT_NAME_LEN w.name,
    time := w.time,
    east := w.east,
    north := w.north,
    depth := if w.depth ≠ 0 then some w.depth else none,
    icon := if w.icon < tblLen then some w.icon else none }

/-- Read-side state: the output waypoint list (`waypt_add`) and the
`wpt_num_to_wpt_hash` map from file-local number to waypoint. -/
structure ReadState where
  waypts : List HWaypoint
  hash : Nat → Option HWaypoint

/-- The status switch of humminbird_read_wpt: case 0, cases 16/17/63 and
the default all delete the waypoint; cases 1/2/3 `waypt_add` it and
register it in the hash under `w.num`.  The record itself was fully read
(`gbfread(&w, 1, sizeof(w), fin)`) before the switch, so stream position
does not depend on the status. -/
def humminbird_read_wpt (tblLen : Nat) (st : ReadState) (w : WptRecord) : ReadState :=
  if w.status = 0 then st
  else if w.status = 1 ∨ w.status = 2 ∨ w.status = 3 then
    { waypts := st.waypts ++ [wptFromRecord tblLen w],
      hash := fun k => if k = w.num then some (wptFromRecord tblLen w) else st.hash k }
  else st

/-! ## Route decode, humminbird_read_route -/

/-- The route record after byte-order correction of `time` and `num`.
`count` is the `int8_t` field; `points` is the fixed 50-entry uint16
array. -/
structure RteRecord where
  num : Nat
  count : Int
  time : Nat
  name : List Nat
  points : List Nat

/-- Result of decoding one route record.  `warnings` counts warning
emissions (the source loop contains no `warning` call).  `oobReads` lists
the loop indices `i` with `MAX_RTE_POINTS ≤ i` at which `hrte.points[i]`
was read: those reads are past the end of the 50-entry array. -/
structure RouteOut where
  route : Option (List Nat × List HWaypoint)
  warnings : Nat
  oobReads : List Nat
deriving DecidableEq

/-- The route point loop: the `route_head` is created lazily at the first
resolved point (carrying the record name), every resolved point is
appended in order, and unresolved points are skipped with no effect. -/
def routeGo (lookup : Nat → Option HWaypoint) (name : List Nat) :
    List Nat → Option (List Nat × List HWaypoint) → Option (List Nat × List HWaypoint)
  | [], acc => acc
  | p :: rest, acc =>
    match lookup p with
    | none => routeGo lookup name rest acc
    | some w =>
      match acc with
      | none => routeGo lookup name rest (some (name, [w]))
      | some (nm, ws) => routeGo lookup name rest (some (nm, ws ++ [w]))

/-- Body of humminbird_read_route.  `lookup` is
`wpt_num_to_wpt_hash.value`; `mem` models whatever memory lies past the
50-entry `points` array (the source indexes `hrte.points[i]` for every
`i < hrte.count` without bounding `i` by 50). -/
def humminbird_read_route (lookup : Nat → Option HWaypoint) (mem : Nat → Nat)
    (r : RteRecord) : RouteOut :=
  if 0 < r.count then
    let idxs := List.range r.count.toNat
    let refs := idxs.map (fun i => if i < MAX_RTE_POINTS then r.points.getD i 0 else mem i)
    { route := routeGo lookup (cstrTake RTE_NAME_LEN r.name) refs none,
      warnings := 0,
      oobReads := idxs.filter (fun i => MAX_RTE_POINTS ≤ i) }
  else { route := none, warnings := 0, oobReads := [] }

/-! ## Read dispatcher, humminbird_read -/

/-- Which reader a dispatch iteration invoked. -/
inductive RecAction where
  | wptRec
  | rteRec
  | trkNewRec
  | trkOldRec
deriving DecidableEq

/-- The dispatcher loop of humminbird_read over the sequence of 4-byte
magic values at record boundaries (each record body is consumed by the
invoked reader; the track readers `return`, leaving the remainder of the
stream uninterpreted).  Result: the reader invocations in order plus the
uninterpreted remainder, or the offending magic on the fatal default. -/
def humminbird_read : List Nat → Except Nat (List RecAction × List Nat)
  | [] => Except.ok ([], [])
  | m :: rest =>
    if m = WPT_MAGIC ∨ m = WPT_MAGIC2 then
      match humminbird_read rest with
      | Except.ok (acts, left) => Except.ok (RecAction.wptRec :: acts, left)
      | Except.error e => Except.error e
    else if m = RTE_MAGIC then
      match humminbird_read rest with
      | Except.ok (acts, left) => Except.ok (RecAction.rteRec :: acts, left)
      | Except.error e => Except.error e
    else if m = TRK_MAGIC then Except.ok ([RecAction.trkNewRec], rest)
    else if m = TRK_MAGIC2 then Except.ok ([RecAction.trkOldRec], rest)
    else Except.error m

/-- The action a non-track magic dispatches to. -/
def magicAction (m : Nat) : RecAction :=
  if m = RTE_MAGIC then RecAction.rteRec else RecAction.wptRec

/-! ## Waypoint encode: icon resolution, humminbird_write_waypoint -/

/-- ASCII lower-casing of one byte, modelling Qt::CaseInsensitive for the
ASCII icon names. -/
def lowerByte (c : Nat) : Nat :=
  if 65 ≤ c ∧ c ≤ 90 then c + 32 else c

/-- Case-insensitive equality: `!icon_descr.compare(entry, CaseInsensitive)`. -/
def ciEq (a b : List Nat) : Bool :=
  a.map lowerByte == b.map lowerByte

/-- Case-insensitive substring containment:
`icon_descr.contains(entry, CaseInsensitive)`. -/
def ciContains (hay sub : List Nat) : Bool :=
  (List.range (hay.length + 1)).any
    (fun k => (sub.map lowerByte).isPrefixOf ((hay.map lowerByte).drop k))

/-- First index `i` (in loop order `i = 0, 1, ...`, `break` on hit) with
`p table[i]`. -/
def findFirstIdx (p : List Nat → Bool) : List (List Nat) → Option Nat
  | [] => none
  | x :: rest => if p x then some 0 else (findFirstIdx p rest).map (· + 1)

/-- The icon byte written by humminbird_write_waypoint: initialised to 255;
when `icon_descr` is not null, first an exact case-insensitive scan, then
(after resetting to 0) a substring scan; a scan hit overwrites with the
entry index.  `descr = none` models a null `icon_descr`. -/
def humminbird_write_icon (table : List (List Nat)) (descr : Option (List Nat)) : Nat :=
  match descr with
  | none => 255
  | some s =>
    match findFirstIdx (fun t => ciEq s t) table with
    | some i => i
    | none =>
      match findFirstIdx (fun t => ciContains s t) table with
      | some i => i
      | none => 0

/-! ## Track encode (new format), HumminbirdHTFormat -/

/-- One point handed to humminbird_track_cb after the floating-point
projection and rounding (outside the embedding): the `int32_t east` /
`north`, the depth in centimeters, and the creation time when valid. -/
structure EncPoint where
  east : Int
  north : Int
  depth : Nat
  time : Option Nat
deriving DecidableEq

/-- One in-memory `humminbird_trk_point_t` slot of the write-side array:
the 16-bit patterns stored by the `int16_t` casts and `be_write16`. -/
structure TrkSlot where
  de : Nat
  dn : Nat
  depth : Nat
deriving DecidableEq

/-- Write-side state of HumminbirdHTFormat between the head/cb/tail
callbacks.  `slots` models the `trk_points` array allocated with
`new humminbird_trk_point_t[max_points]()` (zero-initialised); a store
`trk_points[j]` with `j` outside the allocation is recorded in
`oobStores` instead of touching `slots`. -/
structure EncState where
  numPoints : Nat
  trkNum : Nat
  name : List Nat
  startEast : Int
  startNorth : Int
  swEast : Int
  swNorth : Int
  neEast : Int
  neNorth : Int
  lastEast : Int
  lastNorth : Int
  lastTime : Nat
  slots : Nat → TrkSlot
  oobStores : List Nat

/-- The write-side state right after humminbird_track_head on a non-empty
track: zero-initialised header and freshly allocated zeroed point array,
with the name and the track number filled in. -/
def headState (nm : List Nat) (num : Nat) : EncState :=
  { numPoints := 0, trkNum := num % 65536, name := nm,
    startEast := 0, startNorth := 0,
    swEast := 0, swNorth := 0, neEast := 0, neNorth := 0,
    lastEast := 0, lastNorth := 0, lastTime := 0,
    slots := fun _ => { de := 0, dn := 0, depth := 0 },
    oobStores := [] }

/-- humminbird_track_head: nothing for an empty track, `headState`
otherwise. -/
def humminbird_track_head (nm : List Nat) (num : Nat) (isEmpty : Bool) : Option EncState :=
  if isEmpty then none else some (headState nm num)

/-- The body of humminbird_track_cb for `i = num_points` (before the final
common updates): the first point fills the header start coordinate and
seeds the bounding box; every later point stores a 16-bit delta record at
`j = i - 1` and expands the bounding box. -/
def trackCbCore (s : EncState) (p : EncPoint) : EncState :=
  let i := s.numPoints
  if i = 0 then
    { s with startEast := p.east, startNorth := p.north,
             swEast := p.east, neEast := p.east,
             swNorth := p.north, neNorth := p.north }
  else
    let j := i - 1
    let slot : TrkSlot :=
      { de := ((p.east - s.lastEast) % 65536).toNat,
        dn := ((p.north - s.lastNorth) % 65536).toNat,
        depth := p.depth % 65536 }
    let s1 :=
      if j < trkMaxPoints then
        { s with slots := fun k => if k = j then slot else s.slots k }
      else
        { s with oobStores := s.oobStores ++ [j] }
    { s1 with
      neEast := if s1.neEast < p.east then p.east else s1.neEast,
      swEast := if p.east < s1.swEast then p.east else s1.swEast,
      neNorth := if s1.neNorth < p.north then p.north else s1.neNorth,
      swNorth := if p.north < s1.swNorth then p.north else s1.swNorth }

/-- humminbird_track_cb: update `last_time` from a valid creation time,
run the per-point body, then the common trailer: `last_east`/`last_north`
take the point's coordinates and the uint16 `num_points` is incremented. -/
def humminbird_track_cb (s : EncState) (p : EncPoint) : EncState :=
  let s1 := match p.time with
            | some t => { s with lastTime := t % 4294967296 }
            | none => s
  let s2 := trackCbCore s1 p
  { s2 with lastEast := p.east, lastNorth := p.north,
            numPoints := (s.numPoints + 1) % 65536 }

/-- The whole per-track encoding pass: head callback, then one cb per
point (track_disp_all). -/
def encodeTrack (nm : List Nat) (num : Nat) (pts : List EncPoint) : Option EncState :=
  match humminbird_track_head nm num pts.isEmpty with
  | none => none
  | some s => some (pts.foldl humminbird_track_cb s)

/-- Big-endian 16-bit serialization (`be_write16` / `gbfputuint16`). -/
def be16N (x : Nat) : List Nat :=
  [x / 256 % 256, x % 256]

/-- Big-endian 32-bit serialization (`be_write32` / `gbfputuint32`). -/
def be32N (x : Nat) : List Nat :=
  [x / 16777216 % 256, x / 65536 % 256, x / 256 % 256, x % 256]

/-- Big-endian 32-bit serialization of a signed value: the two's
complement bit pattern. -/
def be32I (v : Int) : List Nat :=
  be32N ((v % 4294967296).toNat)

/-- The 20-byte `name` field of the header struct: zero-initialised, then
`strncpy(..., sizeof(name) - 1)`. -/
def nameField (nm : List Nat) : List Nat :=
  (nm.take 19 ++ List.replicate 20 0).take 20

/-- The 64 bytes of `humminbird_trk_header_t` as humminbird_track_tail
writes them: `end_east`/`end_north` from the last accumulated coordinate,
`time` from the last valid point time, every multi-byte field big-endian,
the `zero` and `unknown` fields left zero-initialised. -/
def trkHeaderBytes (s : EncState) : List Nat :=
  be16N s.trkNum ++ be16N 0 ++ be16N s.numPoints ++ be16N 0 ++
  be32N s.lastTime ++
  be32I s.startEast ++ be32I s.startNorth ++
  be32I s.lastEast ++ be32I s.lastNorth ++
  be32I s.swEast ++ be32I s.swNorth ++ be32I s.neEast ++ be32I s.neNorth ++
  nameField s.name

/-- The 6 bytes of one point slot. -/
def slotBytes (sl : TrkSlot) : List Nat :=
  be16N sl.de ++ be16N sl.dn ++ be16N sl.depth

/-- The full-capacity point array as written by
`gbfwrite(trk_points, max_points, sizeof(humminbird_trk_point_t), fout_)`:
always all `max_points` slots. -/
def slotArrayBytes (slots : Nat → TrkSlot) : List Nat :=
  ((List.range trkMaxPoints).map (fun j => slotBytes (slots j))).flatten

/-- humminbird_track_tail: nothing when the head saw an empty track,
otherwise the 4-byte magic, the 64-byte header, the full-capacity point
array and the trailing `gbfputuint16(0)` pad. -/
def humminbird_track_tail (o : Option EncState) : List Nat :=
  match o with
  | none => []
  | some s => be32N TRK_MAGIC ++ trkHeaderBytes s ++ slotArrayBytes s.slots ++ be16N 0

/-! ## Theorems -/

theorem fixGo_length (l : List Int) : ∀ cur, (fixGo cur l).length = l.length + 1 := by
  induction l with
  | nil => intro cur; rfl
  | cons d2 rest ih =>
    intro cur
    unfold fixGo
    by_cases h : cur = 32767 ∧ d2 = -32768
    · simp [h, ih]
    · simp [h, ih]

theorem fixDeltas_length (l : List Int) : (fixDeltas l).length = l.length := by
  cases l with
  | nil => rfl
  | cons d rest => simp [fixDeltas, fixGo_length]

theorem fixDeltas_freak_pair (rest : List Int) :
    fixDeltas (32767 :: -32768 :: rest) = -1 :: 0 :: fixDeltas rest := by
  cases rest with
  | nil => rfl
  | cons r t =>
    show fixGo 32767 (-32768 :: r :: t) = -1 :: 0 :: fixGo r t
    rw [fixGo, if_pos ⟨rfl, rfl⟩, fixGo, if_neg (fun h => absurd h.1 (by decide))]

/-- C5 (amended): on a freak pair the deltas are rewritten to `(-1, 0)`
before accumulation; the corrected accumulated coordinate at the
rewritten point is `start - 1` while the naive running sum is
`start + 32767`, a difference of exactly 32768; at the following point
both sums are `start - 1` again and continue from the same value. -/
theorem humminbird_c5_amended (s : Int) (rest : List Int) :
    fixDeltas (32767 :: -32768 :: rest) = -1 :: 0 :: fixDeltas rest ∧
    accumList s (fixDeltas (32767 :: -32768 :: rest)) =
      (s - 1) :: (s - 1) :: accumList (s - 1) (fixDeltas rest) ∧
    accumList s (32767 :: -32768 :: rest) =
      (s + 32767) :: (s - 1) :: accumList (s - 1) rest ∧
    (s + 32767) - (s - 1) = 32768 := by
  have h1 : s + -1 = s - 1 := by ring
  have h2 : s + 32767 + -32768 = s - 1 := by ring
  refine ⟨fixDeltas_freak_pair rest, ?_, ?_, by ring⟩
  · rw [fixDeltas_freak_pair]
    simp [accumList, h1]
  · simp [accumList, h2]

/-- C5 (counterexample to the claim as stated): for the two-point track
body `[32767, -32768]` starting at 0, the corrected accumulated
coordinates are `[-1, -1]` and the naive ones `[32767, -1]`: the
differences are 32768 and 0, so no accumulated coordinate differs from
the naive sum by exactly 1. -/
theorem humminbird_c5_counterexample :
    fixDeltas [32767, -32768] = [-1, 0] ∧
    accumList 0 (fixDeltas [32767, -32768]) = [-1, -1] ∧
    accumList 0 [32767, -32768] = [32767, -1] ∧
    List.zipWith (fun a b => a - b) (accumList 0 [32767, -32768])
      (accumList 0 (fixDeltas [32767, -32768])) = [32768, 0] ∧
    (32768 : Int) ≠ 1 ∧ (32768 : Int) ≠ -1 ∧ (0 : Int) ≠ 1 ∧ (0 : Int) ≠ -1 := by
  decide

theorem trackLoopOld_map_east (l : List (Int × Int)) :
    ∀ ae an t, (trackLoopOld ae an t l).map DecPt.east = accumList ae (l.map Prod.fst) := by
  induction l with
  | nil => intro ae an t; rfl
  | cons p rest ih =>
    intro ae an t
    obtain ⟨de, dn⟩ := p
    simp [trackLoopOld, accumList, ih]

theorem trackLoopOld_map_north (l : List (Int × Int)) :
    ∀ ae an t, (trackLoopOld ae an t l).map DecPt.north = accumList an (l.map Prod.snd) := by
  induction l with
  | nil => intro ae an t; rfl
  | cons p rest ih =>
    intro ae an t
    obtain ⟨de, dn⟩ := p
    simp [trackLoopOld, accumList, ih]

theorem trackLoopOld_map_depth (l : List (Int × Int)) :
    ∀ ae an t, (trackLoopOld ae an t l).map DecPt.depth = List.replicate l.length none := by
  induction l with
  | nil => intro ae an t; rfl
  | cons p rest ih =>
    intro ae an t
    obtain ⟨de, dn⟩ := p
    simp [trackLoopOld, ih, List.replicate_succ]

theorem trackLoop_map_east (l : List (Int × Int × Nat)) :
    ∀ ae an t, (trackLoop ae an t l).map DecPt.east = accumList ae (l.map (fun x => x.1)) := by
  induction l with
  | nil => intro ae an t; rfl
  | cons p rest ih =>
    intro ae an t
    obtain ⟨de, dn, d⟩ := p
    simp [trackLoop, accumList, ih]

theorem trackLoop_map_north (l : List (Int × Int × Nat)) :
    ∀ ae an t, (trackLoop ae an t l).map DecPt.north = accumList an (l.map (fun x => x.2.1)) := by
  induction l with
  | nil => intro ae an t; rfl
  | cons p rest ih =>
    intro ae an t
    obtain ⟨de, dn, d⟩ := p
    simp [trackLoop, accumList, ih]

theorem read_track_new_map_east (h : TrkHeader) (pts : List TrkPt) :
    ((humminbird_read_track h pts).points.map DecPt.east) =
      h.start_east :: accumList h.start_east (fixDeltas (pts.map TrkPt.de)) := by
  unfold humminbird_read_track
  simp only [List.map_cons, trackLoop_map_east]
  congr 1
  have hlen : (fixDeltas (pts.map TrkPt.de)).length ≤
      ((fixDeltas (pts.map TrkPt.dn)).zip (pts.map TrkPt.depth)).length := by
    simp [fixDeltas_length, List.length_zip]
  exact congrArg (accumList h.start_east)
    (List.map_fst_zip (fixDeltas (pts.map TrkPt.de))
      ((fixDeltas (pts.map TrkPt.dn)).zip (pts.map TrkPt.depth)) hlen)

theorem read_track_new_map_north (h : TrkHeader) (pts : List TrkPt) :
    ((humminbird_read_track h pts).points.map DecPt.north) =
      h.start_north :: accumList h.start_north (fixDeltas (pts.map TrkPt.dn)) := by
  unfold humminbird_read_track
  simp only [List.map_cons, trackLoop_map_north]
  congr 1
  have h1 : ((fixDeltas (pts.map TrkPt.de)).zip
      ((fixDeltas (pts.map TrkPt.dn)).zip (pts.map TrkPt.depth))).map
        (fun x => x.2.1) =
      (((fixDeltas (pts.map TrkPt.de)).zip
      ((fixDeltas (pts.map TrkPt.dn)).zip (pts.map TrkPt.depth))).map Prod.snd).map
        Prod.fst := by
    rw [List.map_map]
    rfl
  rw [h1, List.map_snd_zip _ _ (by simp [fixDeltas_length, List.length_zip]),
    List.map_fst_zip _ _ (by simp [fixDeltas_length])]

/-- C8: the old-format decode accumulates the raw deltas with the same
running accumulation as the new format but never applies the freak-value
rewrite (the new decode accumulates `fixDeltas` of its deltas, the old
decode the deltas themselves); every old-format point carries no depth;
and the old-format name is the 20-byte field at fixed offset
`8048 - 20` of the 8048-byte record, not a header field. -/
theorem humminbird_c8_old_track (h : TrkHeaderOld) (pts : List (Int × Int))
    (file : List Nat) (hn : TrkHeader) (qts : List TrkPt) :
    ((humminbird_read_track_old h pts file).points.map DecPt.east) =
      h.start_east :: accumList h.start_east (pts.map Prod.fst) ∧
    ((humminbird_read_track_old h pts file).points.map DecPt.north) =
      h.start_north :: accumList h.start_north (pts.map Prod.snd) ∧
    ((humminbird_read_track_old h pts file).points.map DecPt.depth) =
      List.replicate (pts.length + 1) none ∧
    (humminbird_read_track_old h pts file).name =
      cstrTake TRK_NAME_LEN (file.drop (oldFileLen - TRK_NAME_LEN)) ∧
    ((humminbird_read_track hn qts).points.map DecPt.east) =
      hn.start_east :: accumList hn.start_east (fixDeltas (qts.map TrkPt.de)) ∧
    ((humminbird_read_track hn qts).points.map DecPt.north) =
      hn.start_north :: accumList hn.start_north (fixDeltas (qts.map TrkPt.dn)) := by
  refine ⟨?_, ?_, ?_, rfl, read_track_new_map_east hn qts, read_track_new_map_north hn qts⟩
  · unfold humminbird_read_track_old
    simp [trackLoopOld_map_east]
  · unfold humminbird_read_track_old
    simp [trackLoopOld_map_north]
  · unfold humminbird_read_track_old
    simp [trackLoopOld_map_depth, List.replicate_succ]

/-- C6 (amended): the decode-side maximum capacity is
`(131080 - 4 - 64) / 6 = 21835` (the header struct is 64 bytes; the 68 of
the spec counts the 4-byte magic); a stored count of exactly
`max + 1` is decremented, a count exceeding `max` after the adjustment is
fatal, and otherwise exactly `count - 1` whole 6-byte records are read
from the stream (the trailing slot of the `count`-slot array is never
read). -/
theorem humminbird_c6_amended (n : Nat) (hn : n ≤ 65535) :
    trkMaxPoints = 21835 ∧
    (n = trkMaxPoints + 1 → trkAdjustCount n = trkMaxPoints) ∧
    (trkMaxPoints < trkAdjustCount n ↔ readTrackPlan n = none) ∧
    (1 ≤ n → trkAdjustCount n ≤ trkMaxPoints →
      readTrackPlan n = some (trkAdjustCount n - 1)) := by
  have hmax : trkMaxPoints = 21835 := by decide
  refine ⟨hmax, ?_, ?_, ?_⟩
  · intro h
    unfold trkAdjustCount
    rw [if_pos h]
    omega
  · by_cases h : trkMaxPoints < trkAdjustCount n
    · simp [readTrackPlan, h]
    · simp [readTrackPlan, h]
  · intro h1 h2
    have hadj1 : 1 ≤ trkAdjustCount n := by
      unfold trkAdjustCount
      rw [hmax]
      split <;> omega
    have hadj2 : trkAdjustCount n ≤ 21835 := hmax ▸ h2
    unfold readTrackPlan
    rw [if_neg (not_lt.mpr h2)]
    congr 1
    omega

/-- C6 (counterexample to the claim as stated): the claim's capacity
formula `(131080 - 4 - 68) / 6` gives 21834, under which a stored count
of 21836 is neither `max + 1` nor within `max` and so would have to be
fatal; the code's capacity is 21835, so 21836 is decremented and decoded
non-fatally, reading 21834 records. -/
theorem humminbird_c6_counterexample :
    (131080 - 4 - 68) / 6 = 21834 ∧
    21836 ≠ (131080 - 4 - 68) / 6 + 1 ∧
    (131080 - 4 - 68) / 6 < 21836 ∧
    readTrackPlan 21836 = some 21834 ∧
    trkMaxPoints = 21835 := by
  decide

theorem humminbird_c6_amended_witness :
    trkAdjustCount 21836 = trkMaxPoints ∧
    readTrackPlan 21836 = some (trkAdjustCount 21836 - 1) := by
  have h := humminbird_c6_amended 21836 (by decide)
  exact ⟨h.2.1 (by decide), h.2.2.2 (by decide) (by decide)⟩

/-- C7: a decoded waypoint record is materialized (appended to the output
waypoint list) and registered in the Waypoint Index under its file-local
number exactly when its status is 1, 2 or 3; every other status leaves
the read state untouched (the record having been fully consumed from the
stream before the status switch). -/
theorem humminbird_c7_status_filter (tblLen : Nat) (st : ReadState) (w : WptRecord) :
    ((w.status = 1 ∨ w.status = 2 ∨ w.status = 3) →
      (humminbird_read_wpt tblLen st w).waypts = st.waypts ++ [wptFromRecord tblLen w] ∧
      (humminbird_read_wpt tblLen st w).hash w.num = some (wptFromRecord tblLen w) ∧
      ∀ k, k ≠ w.num → (humminbird_read_wpt tblLen st w).hash k = st.hash k) ∧
    (¬(w.status = 1 ∨ w.status = 2 ∨ w.status = 3) →
      humminbird_read_wpt tblLen st w = st) := by
  unfold humminbird_read_wpt
  by_cases h0 : w.status = 0
  · rw [if_pos h0]
    refine ⟨fun h => absurd h (by omega), fun _ => rfl⟩
  · rw [if_neg h0]
    by_cases h123 : w.status = 1 ∨ w.status = 2 ∨ w.status = 3
    · rw [if_pos h123]
      refine ⟨fun _ => ⟨rfl, ?_, ?_⟩, fun h => absurd h123 h⟩
      · simp
      · intro k hk
        simp [hk]
    · rw [if_neg h123]
      exact ⟨fun h => absurd h h123, fun _ => rfl⟩

theorem humminbird_c7_status_filter_witness :
    (humminbird_read_wpt 5 ⟨[], fun _ => none⟩
        ⟨7, 2, 3, 120, 5, 10, 20, [77, 0, 66]⟩).hash 7 =
      some (wptFromRecord 5 ⟨7, 2, 3, 120, 5, 10, 20, [77, 0, 66]⟩) :=
  ((humminbird_c7_status_filter 5 ⟨[], fun _ => none⟩
      ⟨7, 2, 3, 120, 5, 10, 20, [77, 0, 66]⟩).1 (Or.inr (Or.inl rfl))).2.1

/-- C9: the dispatcher consumes magics until end of stream when every
record is a waypoint or route record; a stream whose first track magic is
preceded only by waypoint/route magics decodes records up to and
including that single track record and leaves the remainder of the
stream uninterpreted; and a magic outside the five known signatures
(reached after waypoint/route records) is fatal with that magic
reported. -/
theorem humminbird_c9_dispatch (pre : List Nat)
    (hpre : ∀ x ∈ pre, x = WPT_MAGIC ∨ x = WPT_MAGIC2 ∨ x = RTE_MAGIC) :
    humminbird_read pre = Except.ok (pre.map magicAction, []) ∧
    (∀ rest, humminbird_read (pre ++ TRK_MAGIC :: rest) =
      Except.ok (pre.map magicAction ++ [RecAction.trkNewRec], rest)) ∧
    (∀ rest, humminbird_read (pre ++ TRK_MAGIC2 :: rest) =
      Except.ok (pre.map magicAction ++ [RecAction.trkOldRec], rest)) ∧
    (∀ m rest, m ≠ WPT_MAGIC → m ≠ WPT_MAGIC2 → m ≠ RTE_MAGIC →
      m ≠ TRK_MAGIC → m ≠ TRK_MAGIC2 →
      humminbird_read (pre ++ m :: rest) = Except.error m) := by
  induction pre with
  | nil =>
    refine ⟨rfl, ?_, ?_, ?_⟩
    · intro rest
      simp [humminbird_read, WPT_MAGIC, WPT_MAGIC2, RTE_MAGIC, TRK_MAGIC, TRK_MAGIC2]
    · intro rest
      simp [humminbird_read, WPT_MAGIC, WPT_MAGIC2, RTE_MAGIC, TRK_MAGIC, TRK_MAGIC2]
    · intro m rest hm1 hm2 hm3 hm4 hm5
      simp [humminbird_read, hm1, hm2, hm3, hm4, hm5]
  | cons x xs ih =>
    have hx := hpre x (by simp)
    have hxs : ∀ y ∈ xs, y = WPT_MAGIC ∨ y = WPT_MAGIC2 ∨ y = RTE_MAGIC :=
      fun y hy => hpre y (by simp [hy])
    obtain ⟨h1, h2, h3, h4⟩ := ih hxs
    rcases hx with hx | hx | hx <;> subst hx
    · refine ⟨?_, ?_, ?_, ?_⟩
      · simp [humminbird_read, h1, magicAction, WPT_MAGIC, RTE_MAGIC]
      · intro rest
        simp [humminbird_read, h2 rest, magicAction, WPT_MAGIC, RTE_MAGIC]
      · intro rest
        simp [humminbird_read, h3 rest, magicAction, WPT_MAGIC, RTE_MAGIC]
      · intro m rest hm1 hm2 hm3 hm4 hm5
        simp [humminbird_read, h4 m rest hm1 hm2 hm3 hm4 hm5]
    · refine ⟨?_, ?_, ?_, ?_⟩
      · simp [humminbird_read, h1, magicAction, WPT_MAGIC, WPT_MAGIC2, RTE_MAGIC]
      · intro rest
        simp [humminbird_read, h2 rest, magicAction, WPT_MAGIC, WPT_MAGIC2, RTE_MAGIC]
      · intro rest
        simp [humminbird_read, h3 rest, magicAction, WPT_MAGIC, WPT_MAGIC2, RTE_MAGIC]
      · intro m rest hm1 hm2 hm3 hm4 hm5
        simp [humminbird_read, h4 m rest hm1 hm2 hm3 hm4 hm5]
    · refine ⟨?_, ?_, ?_, ?_⟩
      · simp [humminbird_read, h1, magicAction, WPT_MAGIC, WPT_MAGIC2, RTE_MAGIC]
      · intro rest
        simp [humminbird_read, h2 rest, magicAction, WPT_MAGIC, WPT_MAGIC2, RTE_MAGIC]
      · intro rest
        simp [humminbird_read, h3 rest, magicAction, WPT_MAGIC, WPT_MAGIC2, RTE_MAGIC]
      · intro m rest hm1 hm2 hm3 hm4 hm5
        simp [humminbird_read, h4 m rest hm1 hm2 hm3 hm4 hm5]

theorem humminbird_c9_dispatch_witness :
    humminbird_read ([WPT_MAGIC, RTE_MAGIC] ++ TRK_MAGIC :: [99]) =
      Except.ok ([WPT_MAGIC, RTE_MAGIC].map magicAction ++ [RecAction.trkNewRec], [99]) :=
  (humminbird_c9_dispatch [WPT_MAGIC, RTE_MAGIC] (by decide)).2.1 [99]

theorem routeGo_acc (lookup : Nat → Option HWaypoint) (name : List Nat) :
    ∀ (refs : List Nat) (nm : List Nat) (ws : List HWaypoint),
      routeGo lookup name refs (some (nm, ws)) =
        some (nm, ws ++ refs.filterMap lookup) := by
  intro refs
  induction refs with
  | nil => intro nm ws; simp [routeGo]
  | cons p rest ih =>
    intro nm ws
    unfold routeGo
    cases h : lookup p with
    | none => simp [h, ih]
    | some w => simp [h, ih]

theorem routeGo_start (lookup : Nat → Option HWaypoint) (name : List Nat) :
    ∀ refs : List Nat,
      routeGo lookup name refs none =
        if refs.filterMap lookup = [] then none
        else some (name, refs.filterMap lookup) := by
  intro refs
  induction refs with
  | nil => simp [routeGo]
  | cons p rest ih =>
    unfold routeGo
    cases h : lookup p with
    | none => simp [h, ih]
    | some w => simp [h, routeGo_acc]

theorem refs_take (l : List Nat) (mem : Nat → Nat) :
    ∀ c : Nat, c ≤ MAX_RTE_POINTS → l.length = MAX_RTE_POINTS →
      (List.range c).map (fun i => if i < MAX_RTE_POINTS then l.getD i 0 else mem i) =
        l.take c := by
  intro c
  induction c with
  | zero => intro h1 h2; simp
  | succ k ih =>
    intro h1 h2
    rw [List.range_succ, List.map_append, ih (by omega) h2, List.take_succ]
    simp only [List.map_cons, List.map_nil]
    have hk : k < l.length := by omega
    rw [if_pos (by omega : k < MAX_RTE_POINTS)]
    rw [List.getElem?_eq_getElem hk]
    simp [List.getD_eq_getElem?_getD, List.getElem?_eq_getElem hk]

/-- C3 (amended): decoding a route whose signed count is positive and
within the 50-entry array processes the first `count` point numbers; an
unresolved number is dropped silently (the source loop contains no
warning call), the route emits exactly when at least one number resolves,
and the emitted route preserves the order of the resolved points. -/
theorem humminbird_c3_amended (lookup : Nat → Option HWaypoint) (mem : Nat → Nat)
    (r : RteRecord) (h1 : 0 < r.count) (h2 : r.count.toNat ≤ MAX_RTE_POINTS)
    (h3 : r.points.length = MAX_RTE_POINTS) :
    (humminbird_read_route lookup mem r).warnings = 0 ∧
    (humminbird_read_route lookup mem r).oobReads = [] ∧
    (humminbird_read_route lookup mem r).route =
      (if (r.points.take r.count.toNat).filterMap lookup = [] then none
       else some (cstrTake RTE_NAME_LEN r.name,
                  (r.points.take r.count.toNat).filterMap lookup)) := by
  unfold humminbird_read_route
  rw [if_pos h1]
  refine ⟨rfl, ?_, ?_⟩
  · simp only [List.filter_eq_nil_iff]
    intro i hi
    simp only [List.mem_range] at hi
    simp only [decide_eq_true_eq]
    omega
  · simp only
    rw [refs_take r.points mem r.count.toNat h2 h3, routeGo_start]

/-- C3 (counterexample to the claim as stated): route point list
`[5, 99, 7]` with 99 unresolved decodes to a route holding the points
for 5 and 7 in order, with zero warnings emitted, not exactly one. -/
theorem humminbird_c3_counterexample :
    (humminbird_read_route
        (fun n => if n = 5 then some ⟨[10], 0, 1, 2, none, none⟩
                  else if n = 7 then some ⟨[20], 0, 3, 4, none, none⟩ else none)
        (fun _ => 0)
        ⟨0, 3, 0, [65], [5, 99, 7] ++ List.replicate 47 0⟩).warnings = 0 ∧
    (humminbird_read_route
        (fun n => if n = 5 then some ⟨[10], 0, 1, 2, none, none⟩
                  else if n = 7 then some ⟨[20], 0, 3, 4, none, none⟩ else none)
        (fun _ => 0)
        ⟨0, 3, 0, [65], [5, 99, 7] ++ List.replicate 47 0⟩).route =
      some ([65], [⟨[10], 0, 1, 2, none, none⟩, ⟨[20], 0, 3, 4, none, none⟩]) ∧
    (0 : Nat) ≠ 1 := by
  decide

theorem humminbird_c3_amended_witness :
    (humminbird_read_route (fun _ => none) (fun _ => 0)
        ⟨1, 2, 0, [66], List.replicate 50 4⟩).warnings = 0 :=
  (humminbird_c3_amended (fun _ => none) (fun _ => 0)
    ⟨1, 2, 0, [66], List.replicate 50 4⟩ (by decide) (by decide) (by decide)).1

/-- C2: decoding a route record with count 51 (a legal int8 value) is not
rejected: the loop processes all 51 entries and reads `hrte.points[50]`,
one slot past the end of the 50-entry array, and no fatal or warning path
exists in the decode loop. -/
theorem humminbird_c2_route_read_overflow :
    (humminbird_read_route (fun _ => none) (fun _ => 0)
        ⟨0, 51, 0, [], List.replicate 50 0⟩).oobReads = [50] ∧
    MAX_RTE_POINTS = 50 ∧
    (humminbird_read_route (fun _ => none) (fun _ => 0)
        ⟨0, 51, 0, [], List.replicate 50 0⟩).warnings = 0 := by
  decide

theorem findFirstIdx_some (p : List Nat → Bool) :
    ∀ (l : List (List Nat)) (i : Nat), findFirstIdx p l = some i →
      i < l.length ∧ p (l.getD i []) = true ∧
      ∀ j, j < i → p (l.getD j []) = false := by
  intro l
  induction l with
  | nil => intro i h; simp [findFirstIdx] at h
  | cons x rest ih =>
    intro i h
    unfold findFirstIdx at h
    by_cases hp : p x
    · rw [if_pos hp] at h
      obtain rfl : (0 : Nat) = i := Option.some.inj h
      exact ⟨by simp, hp, fun j hj => absurd hj (by omega)⟩
    · rw [if_neg hp] at h
      cases hrec : findFirstIdx p rest with
      | none => rw [hrec] at h; simp at h
      | some k =>
        rw [hrec] at h
        obtain rfl : k + 1 = i := by simpa using h
        obtain ⟨hk1, hk2, hk3⟩ := ih k hrec
        refine ⟨by simpa using hk1, by simpa using hk2, ?_⟩
        intro j hj
        cases j with
        | zero => simpa using Bool.of_not_eq_true hp
        | succ j' => simpa using hk3 j' (by omega)

theorem findFirstIdx_none (p : List Nat → Bool) :
    ∀ l : List (List Nat), findFirstIdx p l = none →
      ∀ j, j < l.length → p (l.getD j []) = false := by
  intro l
  induction l with
  | nil => intro h j hj; simp at hj
  | cons x rest ih =>
    intro h j hj
    unfold findFirstIdx at h
    by_cases hp : p x
    · rw [if_pos hp] at h; simp at h
    · rw [if_neg hp] at h
      cases j with
      | zero => simpa using Bool.of_not_eq_true hp
      | succ j' =>
        cases hrec : findFirstIdx p rest with
        | none => simpa using ih hrec j' (by simpa using hj)
        | some k => rw [hrec] at h; simp at h

/-- C4 (amended): the icon byte is resolved by (1) the first exact
case-insensitive table match, else (2) the first table entry contained
case-insensitively in the description; otherwise (3) a null description
leaves the initial 255 while a non-null description matching nothing at
either step yields icon byte 0 (the code resets the byte to 0 before the
substring scan and a miss leaves it there). -/
theorem humminbird_c4_amended (table : List (List Nat)) (s : List Nat) :
    humminbird_write_icon table none = 255 ∧
    (∀ i, findFirstIdx (fun t => ciEq s t) table = some i →
      humminbird_write_icon table (some s) = i ∧ i < table.length ∧
      ciEq s (table.getD i []) = true ∧
      ∀ j, j < i → ciEq s (table.getD j []) = false) ∧
    (findFirstIdx (fun t => ciEq s t) table = none →
      ∀ i, findFirstIdx (fun t => ciContains s t) table = some i →
        humminbird_write_icon table (some s) = i ∧ i < table.length ∧
        ciContains s (table.getD i []) = true ∧
        ∀ j, j < i → ciContains s (table.getD j []) = false) ∧
    (findFirstIdx (fun t => ciEq s t) table = none →
      findFirstIdx (fun t => ciContains s t) table = none →
      humminbird_write_icon table (some s) = 0 ∧
      ∀ j, j < table.length →
        ciEq s (table.getD j []) = false ∧ ciContains s (table.getD j []) = false) := by
  refine ⟨rfl, ?_, ?_, ?_⟩
  · intro i hi
    obtain ⟨hl, hpi, hprev⟩ := findFirstIdx_some _ table i hi
    exact ⟨by simp [humminbird_write_icon, hi], hl, hpi, hprev⟩
  · intro hn i hi
    obtain ⟨hl, hpi, hprev⟩ := findFirstIdx_some _ table i hi
    exact ⟨by simp [humminbird_write_icon, hn, hi], hl, hpi, hprev⟩
  · intro hn1 hn2
    exact ⟨by simp [humminbird_write_icon, hn1, hn2],
      fun j hj => ⟨findFirstIdx_none _ table hn1 j hj,
                   findFirstIdx_none _ table hn2 j hj⟩⟩

/-- C4 (counterexample to the claim as stated): a non-null icon
description matching no table entry exactly nor as a substring is written
as icon byte 0, not 255. -/
theorem humminbird_c4_counterexample :
    humminbird_write_icon [[1]] (some [9]) = 0 ∧ (0 : Nat) ≠ 255 := by
  decide

theorem humminbird_c4_amended_witness :
    humminbird_write_icon [[1], [2]] (some [2]) = 1 ∧
    humminbird_write_icon [[1], [2]] none = 255 := by
  have h := humminbird_c4_amended [[1], [2]] [2]
  exact ⟨(h.2.1 1 (by decide)).1, h.1⟩


theorem track_cb_numPoints (s : EncState) (p : EncPoint) :
    (humminbird_track_cb s p).numPoints = (s.numPoints + 1) % 65536 := by
  unfold humminbird_track_cb trackCbCore
  cases p.time <;> by_cases h0 : s.numPoints = 0 <;> simp [h0]

theorem track_cb_oob_le (s : EncState) (p : EncPoint)
    (h : s.numPoints ≤ trkMaxPoints) :
    (humminbird_track_cb s p).oobStores = s.oobStores := by
  have hmax : trkMaxPoints = 21835 := by decide
  unfold humminbird_track_cb trackCbCore
  cases p.time <;> by_cases h0 : s.numPoints = 0
  · simp [h0]
  · simp [h0, show s.numPoints - 1 < trkMaxPoints from by omega]
  · simp [h0]
  · simp [h0, show s.numPoints - 1 < trkMaxPoints from by omega]

theorem track_cb_oob_over (s : EncState) (p : EncPoint)
    (h : s.numPoints = trkMaxPoints + 1) :
    (humminbird_track_cb s p).oobStores = s.oobStores ++ [trkMaxPoints] := by
  unfold humminbird_track_cb trackCbCore
  cases p.time <;> simp [h]

theorem track_cb_slots_ge (s : EncState) (p : EncPoint) (j : Nat)
    (h : s.numPoints ≤ j) :
    (humminbird_track_cb s p).slots j = s.slots j := by
  unfold humminbird_track_cb trackCbCore
  cases p.time <;> by_cases h0 : s.numPoints = 0
  · simp [h0]
  · by_cases hj : s.numPoints - 1 < trkMaxPoints <;>
      simp [h0, hj, show ¬j = s.numPoints - 1 from by omega]
  · simp [h0]
  · by_cases hj : s.numPoints - 1 < trkMaxPoints <;>
      simp [h0, hj, show ¬j = s.numPoints - 1 from by omega]

theorem encodeTrack_eq (nm : List Nat) (num : Nat) (pts : List EncPoint)
    (h : pts ≠ []) :
    encodeTrack nm num pts =
      some (pts.foldl humminbird_track_cb (headState nm num)) := by
  unfold encodeTrack humminbird_track_head
  rw [if_neg (by simp [List.isEmpty_iff, h])]

theorem track_run_replicate (p : EncPoint) (nm : List Nat) (num : Nat) :
    ∀ k, k ≤ trkMaxPoints + 1 →
      ((List.replicate k p).foldl humminbird_track_cb (headState nm num)).numPoints = k ∧
      ((List.replicate k p).foldl humminbird_track_cb (headState nm num)).oobStores = [] := by
  intro k
  induction k with
  | zero => intro _; exact ⟨rfl, rfl⟩
  | succ n ih =>
    intro hk
    obtain ⟨ih1, ih2⟩ := ih (by omega)
    rw [List.replicate_succ', List.foldl_append]
    have hmax : trkMaxPoints = 21835 := by decide
    constructor
    · rw [List.foldl_cons, List.foldl_nil, track_cb_numPoints, ih1,
        Nat.mod_eq_of_lt (by omega)]
    · rw [List.foldl_cons, List.foldl_nil, track_cb_oob_le _ _ (by omega), ih2]

/-- C1: the write path has no capacity check: encoding a non-empty track
with 21837 points stores the 21837th point's delta record at array index
21835, one slot past the end of the `max_points = 21835`-slot
`trk_points` allocation, instead of splitting the track or aborting. -/
theorem humminbird_c1_track_write_overflow :
    (encodeTrack [] 0 (List.replicate 21837 ⟨0, 0, 0, none⟩)).map EncState.oobStores =
      some [trkMaxPoints] ∧
    trkMaxPoints = 21835 := by
  have hmax : trkMaxPoints = 21835 := by decide
  refine ⟨?_, hmax⟩
  rw [encodeTrack_eq _ _ _ (List.ne_nil_of_length_pos (by rw [List.length_replicate]; omega))]
  obtain ⟨h1, h2⟩ := track_run_replicate ⟨0, 0, 0, none⟩ [] 0 21836 (by omega)
  rw [show (21837 : Nat) = 21836 + 1 from rfl, List.replicate_succ',
    List.foldl_append, List.foldl_cons, List.foldl_nil, Option.map_some']
  rw [track_cb_oob_over _ _ (by omega), h2]
  rfl

theorem nameField_length (nm : List Nat) : (nameField nm).length = 20 := by
  simp [nameField]

theorem rangeMap_flatten_length (g : Nat → List Nat) (h : ∀ j, (g j).length = 6) :
    ∀ n : Nat, (((List.range n).map g).flatten).length = 6 * n := by
  intro n
  induction n with
  | zero => rfl
  | succ m ih =>
    rw [List.range_succ, List.map_append, List.flatten_append, List.length_append, ih]
    simp [h]
    omega

theorem slotArrayBytes_length (f : Nat → TrkSlot) :
    (slotArrayBytes f).length = 6 * trkMaxPoints := by
  unfold slotArrayBytes
  exact rangeMap_flatten_length (fun j => slotBytes (f j)) (fun _ => rfl) trkMaxPoints

theorem trkHeaderBytes_length (s : EncState) : (trkHeaderBytes s).length = 64 := by
  simp [trkHeaderBytes, be16N, be32N, be32I, nameField]

theorem tail_some_length (s : EncState) :
    (humminbird_track_tail (some s)).length = 131080 := by
  have hmax : trkMaxPoints = 21835 := by decide
  simp [humminbird_track_tail, trkHeaderBytes_length, slotArrayBytes_length,
    be32N, be16N]
  omega

theorem track_foldl_slots (pts : List EncPoint) :
    ∀ (s : EncState) (j : Nat),
      s.numPoints + pts.length ≤ 65535 → s.numPoints + pts.length ≤ j + 1 →
      (pts.foldl humminbird_track_cb s).slots j = s.slots j := by
  induction pts with
  | nil => intro s j h1 h2; rfl
  | cons q rest ih =>
    intro s j h1 h2
    simp only [List.length_cons] at h1 h2
    rw [List.foldl_cons]
    have hcb : (humminbird_track_cb s q).numPoints = s.numPoints + 1 := by
      rw [track_cb_numPoints, Nat.mod_eq_of_lt (by omega)]
    rw [ih (humminbird_track_cb s q) j (by rw [hcb]; omega) (by rw [hcb]; omega)]
    exact track_cb_slots_ge s q j (by omega)

/-- C10 (amended): for every non-empty track the emitted record has the
same fixed on-disk size of 131080 bytes independent of point count: a
4-byte magic, a 64-byte header (68 bytes counting the magic), the
full-capacity array of 21835 six-byte point records - slots beyond the
actual points left zero-filled - and a trailing 2-byte zero pad. -/
theorem humminbird_c10_amended (nm : List Nat) (num : Nat) (pts : List EncPoint)
    (hne : pts ≠ []) :
    (humminbird_track_tail (encodeTrack nm num pts)).length = 131080 ∧
    (∃ s, encodeTrack nm num pts = some s ∧
      humminbird_track_tail (encodeTrack nm num pts) =
        be32N TRK_MAGIC ++ trkHeaderBytes s ++ slotArrayBytes s.slots ++ be16N 0 ∧
      (be32N TRK_MAGIC).length = 4 ∧ (trkHeaderBytes s).length = 64 ∧
      (slotArrayBytes s.slots).length = 6 * trkMaxPoints ∧
      (be16N 0).length = 2 ∧ trkMaxPoints = 21835 ∧
      (pts.length ≤ 65535 → ∀ j, pts.length - 1 ≤ j →
        s.slots j = ⟨0, 0, 0⟩)) := by
  rw [encodeTrack_eq nm num pts hne]
  refine ⟨tail_some_length _,
    pts.foldl humminbird_track_cb (headState nm num), rfl, rfl, rfl,
    trkHeaderBytes_length _, slotArrayBytes_length _, rfl, by decide, ?_⟩
  intro hlen j hj
  have h0 : (headState nm num).numPoints = 0 := rfl
  rw [track_foldl_slots pts (headState nm num) j (by rw [h0]; omega)
    (by rw [h0]; omega)]
  rfl

/-- C10 (counterexample to the claim as stated): the record written for a
one-point track is 131080 bytes long, while the claim's composition of a
4-byte magic plus a 68-byte header plus 21834 six-byte records plus a
2-byte pad totals 131078 bytes (the written header struct is 64 bytes -
68 counts the magic - and the array has 21835 slots). -/
theorem humminbird_c10_counterexample :
    (humminbird_track_tail (encodeTrack [] 0 [⟨1, 2, 3, none⟩])).length = 131080 ∧
    4 + 68 + 21834 * 6 + 2 = 131078 ∧ (131080 : Nat) ≠ 131078 := by
  refine ⟨?_, by norm_num, by norm_num⟩
  rw [encodeTrack_eq [] 0 [⟨1, 2, 3, none⟩] (by simp)]
  exact tail_some_length _

theorem humminbird_c10_amended_witness :
    (humminbird_track_tail (encodeTrack [] 0 [⟨5, 6, 7, some 8⟩])).length = 131080 :=
  (humminbird_c10_amended [] 0 [⟨5, 6, 7, some 8⟩] (by simp)).1
